import Mathlib

/-!
Verification of the backup/restore pipeline of
`backup_restore_folder_pythonic_archivator`.

The development shallowly embeds `backup_folder.py` and `restore_folder.py`:
file contents are lists of byte values, the compression/encryption codec is
treated as the external collaborator the specification declares it to be
(an archive is the list of `(entry name, bytes)` pairs it stores), and all
environment interaction (filesystem existence checks, free-space queries,
per-file I/O success or failure, user interrupts) is passed in explicitly.
Statistics mirror the `ArchiveStats` / `RestoreStats` dataclasses with the
derived percentage accessors computed over `ℚ`.
-/

namespace Archivator

/-- File contents: a sequence of byte values. -/
abbrev Bytes := List Nat

/-- Constant `CHUNK_SIZE = 8 * 1024 * 1024` from both modules. -/
def CHUNK_SIZE : Nat := 8 * 1024 * 1024

/-- Constant `PROGRESS_UPDATE_INTERVAL = 10` from both modules. -/
def PROGRESS_UPDATE_INTERVAL : Nat := 10

/-- Constant `DISK_SPACE_RESERVE_RATIO = 1.1` from `backup_folder.py`. -/
def DISK_SPACE_RESERVE_RATIO : ℚ := 11 / 10

/-- Constant `COMPRESSION_ESTIMATE_RATIO = 0.5` from `backup_folder.py`. -/
def COMPRESSION_ESTIMATE_RATIO : ℚ := 1 / 2

/-- The `ArchiveStats` dataclass of `backup_folder.py`. -/
structure ArchiveStats where
  total_files : Nat := 0
  processed_files : Nat := 0
  total_size : Nat := 0
  processed_size : Nat := 0
  archive_size : Nat := 0
  skipped_files : Nat := 0
deriving DecidableEq

/-- Property `ArchiveStats.compression_ratio`: `(1 - archive_size / total_size) * 100`,
`0.0` when `total_size == 0`. -/
def ArchiveStats.compression_ratio (s : ArchiveStats) : ℚ :=
  if s.total_size = 0 then 0
  else (1 - (s.archive_size : ℚ) / (s.total_size : ℚ)) * 100

/-- Property `ArchiveStats.progress_percent`: `processed_size / total_size * 100`,
`0.0` when `total_size == 0`. -/
def ArchiveStats.progress_percent (s : ArchiveStats) : ℚ :=
  if s.total_size = 0 then 0
  else ((s.processed_size : ℚ) / (s.total_size : ℚ)) * 100

/-- The `RestoreStats` dataclass of `restore_folder.py`. -/
structure RestoreStats where
  total_files : Nat := 0
  extracted_files : Nat := 0
  total_size : Nat := 0
  extracted_size : Nat := 0
  skipped_files : Nat := 0
  errors : Nat := 0
deriving DecidableEq

/-- Property `RestoreStats.progress_percent`: `extracted_files / total_files * 100`,
`0.0` when `total_files == 0` (note: a ratio of file counts, not of sizes). -/
def RestoreStats.progress_percent (s : RestoreStats) : ℚ :=
  if s.total_files = 0 then 0
  else ((s.extracted_files : ℚ) / (s.total_files : ℚ)) * 100

/-- Method `FileProcessor.read_file_chunked`: repeatedly `read(chunk_size)` and
accumulate until a read returns no data.  A file object yielding `data`
returns `data.take chunkSize` and leaves `data.drop chunkSize`; with
`chunk_size = 0` every `read(0)` returns the empty string, so the Python
loop stops at once with an empty buffer. -/
def read_file_chunked : Nat → Bytes → Bytes
  | _, [] => []
  | 0, _ :: _ => []
  | n + 1, b :: rest =>
      ((b :: rest).take (n + 1)) ++ read_file_chunked (n + 1) ((b :: rest).drop (n + 1))
termination_by _ data => data.length
decreasing_by simp [List.length_drop]; omega

/-- Method `FileProcessor.read_file_direct`: `file_path.read_bytes()` returns the
whole contents in one call. -/
def read_file_direct (data : Bytes) : Bytes := data

/-- For a positive chunk size, the chunked reader returns the file contents
unchanged. -/
theorem read_file_chunked_eq_self :
    ∀ (cs : Nat), 0 < cs → ∀ (data : Bytes), read_file_chunked cs data = data
  | 0, h, _ => absurd h (lt_irrefl 0)
  | n + 1, h, [] => by simp [read_file_chunked]
  | n + 1, h, b :: rest => by
      rw [read_file_chunked]
      rw [read_file_chunked_eq_self (n + 1) h ((b :: rest).drop (n + 1))]
      exact List.take_append_drop (n + 1) (b :: rest)
termination_by cs _ data => data.length
decreasing_by simp [List.length_drop]; omega

/-- Basic bound: `compression_ratio ≤ 100` because `archive_size / total_size`
is non-negative. -/
theorem compression_ratio_le_100 (s : ArchiveStats) : s.compression_ratio ≤ 100 := by
  unfold ArchiveStats.compression_ratio
  split
  · norm_num
  · have h : (0 : ℚ) ≤ (s.archive_size : ℚ) / (s.total_size : ℚ) := by positivity
    nlinarith

/-- Claim C6: `compression_ratio` equals `(1 - archive_size/total_size) * 100`
when `total_size ≠ 0` and `0` when `total_size = 0`, and is always at most
`100` (it may be negative for incompressible input). -/
theorem claim_C6_compression_ratio (s : ArchiveStats) :
    s.compression_ratio
      = (if s.total_size = 0 then 0
         else (1 - (s.archive_size : ℚ) / (s.total_size : ℚ)) * 100) ∧
    s.compression_ratio ≤ 100 :=
  ⟨rfl, compression_ratio_le_100 s⟩

/-- Claim C7: for every positive chunk size (in particular the 8 MiB
`CHUNK_SIZE`) and every file contents, the chunked read path and the direct
read path return byte-identical data. -/
theorem claim_C7_chunked_eq_direct (cs : Nat) (h : 0 < cs) (data : Bytes) :
    read_file_chunked cs data = read_file_direct data :=
  read_file_chunked_eq_self cs h data

/-- Witness for C7 at a concrete chunk size and file. -/
theorem claim_C7_witness :
    read_file_chunked 2 [5, 6, 7] = read_file_direct [5, 6, 7] :=
  claim_C7_chunked_eq_direct 2 (by decide) [5, 6, 7]

/-! ## Backup pipeline (`backup_folder.py`, class `BackupCreator`) -/

/-- What the environment does when the pipeline touches one file:
the read succeeds, it fails with `OSError`/`PermissionError`, or the user
presses Ctrl+C (`KeyboardInterrupt`) while the file is being handled. -/
inductive FileEvent
  | ok
  | ioError
  | cancel
deriving DecidableEq

/-- One file of the backup plan, as produced by `calculate_total_size`:
its archive name (`str(path.relative_to(source_dir))`), the size cached in
`_file_sizes`, the bytes a successful read returns, and the environment
event for this file. -/
structure PlanFile where
  path : String
  size : Nat
  content : Bytes
  event : FileEvent
deriving DecidableEq

/-- An archive entry as stored by `archive.writestr(arcname, file_data)`:
the codec (an external collaborator) preserves the name and the bytes. -/
abbrev Entry := String × Bytes

/-- Errors surfaced by the backup pipeline. -/
inductive BackupError
  | notFound
  | notADirectory
  | insufficientSpace
  | userCancelled
deriving DecidableEq

/-- The environment of one `BackupCreator.create_archive` run: source
validation facts, destination-parent existence and free space for the
preflight, the size `stat` reports for the finished archive file, and the
scanned plan. -/
structure BackupEnv where
  sourceExists : Bool
  sourceIsDir : Bool
  parentExists : Bool
  freeSpace : Nat
  archiveDiskSize : Nat
  plan : List PlanFile
deriving DecidableEq

/-- Method `BackupCreator.validate_source`. -/
def validate_source (sourceExists sourceIsDir : Bool) : Option BackupError :=
  if !sourceExists then some .notFound
  else if !sourceIsDir then some .notADirectory
  else none

/-- Method `BackupCreator.calculate_total_size`: the scan fills `total_files` and
`total_size` from the plan (files whose `stat` failed were already excluded
from the plan). -/
def calculate_total_size (plan : List PlanFile) : ArchiveStats :=
  { total_files := plan.length, total_size := (plan.map (fun f => f.size)).sum }

/-- Expression `int(total_size * COMPRESSION_ESTIMATE_RATIO * DISK_SPACE_RESERVE_RATIO)`:
the space estimate, truncated to an integer. -/
def estimated_size (total_size : Nat) : ℤ :=
  Int.floor ((total_size : ℚ) * COMPRESSION_ESTIMATE_RATIO * DISK_SPACE_RESERVE_RATIO)

/-- Method `BackupCreator.check_disk_space`: silently return when the archive's
parent directory does not exist, otherwise raise `OSError` exactly when the
free space is below the estimate. -/
def check_disk_space (parentExists : Bool) (freeSpace total_size : Nat) :
    Option BackupError :=
  if !parentExists then none
  else if (freeSpace : ℤ) < estimated_size total_size then some .insufficientSpace
  else none

/-- The data `_add_file_to_archive` passes to `writestr`: chunked read for
files larger than `CHUNK_SIZE`, direct read otherwise. -/
def file_data (f : PlanFile) : Bytes :=
  if f.size > CHUNK_SIZE then read_file_chunked CHUNK_SIZE f.content
  else read_file_direct f.content

/-- Method `BackupCreator._add_file_to_archive` on one file: on a read failure
increment `skipped_files` and leave the archive unchanged; otherwise append
the entry and update `processed_files` / `processed_size`.  The returned
flag is the method's boolean result. -/
def _add_file_to_archive (stats : ArchiveStats) (archive : List Entry)
    (f : PlanFile) : ArchiveStats × List Entry × Bool :=
  if f.event = .ioError then
    ({ stats with skipped_files := stats.skipped_files + 1 }, archive, false)
  else
    ({ stats with
        processed_files := stats.processed_files + 1,
        processed_size := stats.processed_size + f.size },
     archive ++ [(f.path, file_data f)], true)

/-- Result of the `for file_path in self._file_sizes` loop of
`create_archive`: final stats, archive contents, the stats snapshots passed
to the progress callback, the stats after each handled file, and whether a
`KeyboardInterrupt` escaped the loop. -/
structure WriteLoopOut where
  stats : ArchiveStats
  archive : List Entry
  trace : List ArchiveStats
  states : List ArchiveStats
  interrupted : Bool
deriving DecidableEq

/-- The write loop of `create_archive`: handle each planned file, fire the
callback whenever `processed_files % PROGRESS_UPDATE_INTERVAL == 0`, and
stop at the first `KeyboardInterrupt`. -/
def write_loop (stats : ArchiveStats) (archive : List Entry) :
    List PlanFile → WriteLoopOut
  | [] => ⟨stats, archive, [], [], false⟩
  | f :: rest =>
      if f.event = .cancel then ⟨stats, archive, [], [], true⟩
      else
        let stepped := _add_file_to_archive stats archive f
        let fires :=
          if stepped.1.processed_files % PROGRESS_UPDATE_INTERVAL = 0
          then [stepped.1] else []
        let out := write_loop stepped.1 stepped.2.1 rest
        ⟨out.stats, out.archive, fires ++ out.trace, stepped.1 :: out.states,
         out.interrupted⟩

/-- Result of one `BackupCreator.create_archive` run.  `archiveFile` is the
contents of `backup_path` on disk afterwards (`none`: no archive file),
`trace` the callback snapshots in order, `states` every intermediate value
of `self.stats`, and `error` the exception that escaped, if any. -/
structure BackupResult where
  stats : ArchiveStats
  archiveFile : Option (List Entry)
  trace : List ArchiveStats
  states : List ArchiveStats
  error : Option BackupError
deriving DecidableEq

/-- Method `BackupCreator.create_archive`: validate, scan, preflight, then write.
An initial callback fires before the loop, a final one after it when
`processed_files` is not a multiple of `PROGRESS_UPDATE_INTERVAL`, then
`archive_size` is read from disk.  On `KeyboardInterrupt` the `with` block
closes the handle, the partial archive file is unlinked, and the interrupt
is re-raised. -/
def create_archive (env : BackupEnv) : BackupResult :=
  match validate_source env.sourceExists env.sourceIsDir with
  | some e => ⟨{}, none, [], [{}], some e⟩
  | none =>
      match check_disk_space env.parentExists env.freeSpace
          (calculate_total_size env.plan).total_size with
      | some e =>
          ⟨calculate_total_size env.plan, none, [],
           [{}, calculate_total_size env.plan], some e⟩
      | none =>
          let out := write_loop (calculate_total_size env.plan) [] env.plan
          if out.interrupted then
            ⟨out.stats, none, calculate_total_size env.plan :: out.trace,
             {} :: calculate_total_size env.plan :: out.states,
             some .userCancelled⟩
          else
            ⟨{ out.stats with archive_size := env.archiveDiskSize },
             some out.archive,
             calculate_total_size env.plan :: out.trace
               ++ (if out.stats.processed_files % PROGRESS_UPDATE_INTERVAL = 0
                   then [] else [out.stats]),
             {} :: calculate_total_size env.plan :: out.states
               ++ [{ out.stats with archive_size := env.archiveDiskSize }],
             none⟩

/-! ## Restore pipeline (`restore_folder.py`, classes `ArchiveOpener` and
`RestoreExtractor`) -/

/-- One entry of a ZIP archive as the codec reports it: name, directory
flag, declared uncompressed size, stored bytes, and the environment event
when the entry is extracted. -/
structure ZEntry where
  name : String
  isDir : Bool
  fileSize : Nat
  content : Bytes
  event : FileEvent
deriving DecidableEq

/-- A ZIP archive on disk.  `protection` is the password set when the
archive was created (`none`: unencrypted); `BackupCreator` applies one
password to every entry. -/
structure ZArchive where
  entries : List ZEntry
  protection : Option Bytes
deriving DecidableEq

/-- Errors surfaced by the restore pipeline. -/
inductive RestoreError
  | notFound
  | notAFile
  | passwordRequiredOrIncorrect
  | insufficientSpace
  | userCancelled
deriving DecidableEq

/-- Method `ArchiveOpener.open_archive`: try the plain `zipfile` path first; a
password-related failure on the first entry falls through to the `pyzipper`
path, which succeeds exactly when the supplied password matches; an empty
archive opens without any test read.  All password-related failures
surface as the distinguishable password-required-or-incorrect condition. -/
def open_archive (a : ZArchive) (pwd : Option Bytes) : Except RestoreError Unit :=
  match a.protection with
  | none => .ok ()
  | some p =>
      if a.entries.isEmpty then .ok ()
      else if pwd = some p then .ok ()
      else .error .passwordRequiredOrIncorrect

/-- Method `RestoreExtractor.validate_archive`: existence and regular-file checks,
then a test open; a password-related failure is re-raised as
`RuntimeError("Password required or incorrect")`. -/
def validate_archive (archiveExists archiveIsFile : Bool) (a : ZArchive)
    (pwd : Option Bytes) : Option RestoreError :=
  if !archiveExists then some .notFound
  else if !archiveIsFile then some .notAFile
  else
    match open_archive a pwd with
    | .error _ => some .passwordRequiredOrIncorrect
    | .ok _ => none

/-- Method `RestoreExtractor.check_disk_space`: silently return when the measured
drive does not exist, otherwise require `archive_size * 2` free bytes. -/
def restore_check_disk_space (driveExists : Bool) (freeSpace archiveSize : Nat) :
    Option RestoreError :=
  if !driveExists then none
  else if freeSpace < archiveSize * 2 then some .insufficientSpace
  else none

/-- Field `total_size` accumulated by `extract_archive` before the loop: the sum
of the declared sizes of all non-directory entries. -/
def restoreTotalSize (es : List ZEntry) : Nat :=
  ((es.filter (fun e => !e.isDir)).map (fun e => e.fileSize)).sum

/-- Result of the extraction loop: final stats, files written to the
destination, callback snapshots, stats after each handled entry, and
whether a `KeyboardInterrupt` escaped. -/
structure ExtractLoopOut where
  stats : RestoreStats
  written : List Entry
  trace : List RestoreStats
  states : List RestoreStats
  cancelled : Bool
deriving DecidableEq

/-- The `for file_name in file_list` loop of `extract_archive`: directory
entries are skipped, a per-entry `OSError`/`PermissionError` increments
`skipped_files` and `errors` and continues, a successful extraction writes
the entry and fires the callback when `extracted_files` is a multiple of
`PROGRESS_UPDATE_INTERVAL` or equals `total_files`; a `KeyboardInterrupt`
stops the loop. -/
def extract_loop (stats : RestoreStats) (written : List Entry) :
    List ZEntry → ExtractLoopOut
  | [] => ⟨stats, written, [], [], false⟩
  | e :: rest =>
      if e.event = .cancel then ⟨stats, written, [], [], true⟩
      else if e.isDir then
        let out := extract_loop stats written rest
        ⟨out.stats, out.written, out.trace, stats :: out.states, out.cancelled⟩
      else if e.event = .ioError then
        let stats' := { stats with
          skipped_files := stats.skipped_files + 1,
          errors := stats.errors + 1 }
        let out := extract_loop stats' written rest
        ⟨out.stats, out.written, out.trace, stats' :: out.states,
         out.cancelled⟩
      else
        let stats' := { stats with
          extracted_files := stats.extracted_files + 1,
          extracted_size := stats.extracted_size + e.fileSize }
        let fires :=
          if stats'.extracted_files % PROGRESS_UPDATE_INTERVAL = 0
             ∨ stats'.extracted_files = stats'.total_files
          then [stats'] else []
        let out := extract_loop stats' (written ++ [(e.name, e.content)]) rest
        ⟨out.stats, out.written, fires ++ out.trace, stats' :: out.states,
         out.cancelled⟩

/-- The environment of one `RestoreExtractor.extract_archive` run into an
empty destination directory. -/
structure RestoreEnv where
  archiveExists : Bool
  archiveIsFile : Bool
  driveExists : Bool
  freeSpace : Nat
  archiveDiskSize : Nat
  archive : ZArchive
  pwd : Option Bytes
deriving DecidableEq

/-- Result of one `extract_archive` run.  `written` lists the destination
files in write order, `archiveClosed` records that every exit path released
the handle (the `with` blocks and the `finally` guarantee it), and `error`
is the exception that escaped, if any. -/
structure RestoreResult where
  stats : RestoreStats
  written : List Entry
  trace : List RestoreStats
  states : List RestoreStats
  archiveClosed : Bool
  error : Option RestoreError
deriving DecidableEq

/-- Method `RestoreExtractor.extract_archive`: validate, preflight, open (the
re-open after a successful `validate_archive` yields the same handle),
count entries and sizes, fire the initial callback, run the loop, and fire
the final callback only when no exception escaped.  On `KeyboardInterrupt`
the `finally` closes the handle, the already-extracted files stay in place,
and the interrupt is re-raised. -/
def extract_archive (env : RestoreEnv) : RestoreResult :=
  match validate_archive env.archiveExists env.archiveIsFile env.archive env.pwd with
  | some e => ⟨{}, [], [], [{}], true, some e⟩
  | none =>
      match restore_check_disk_space env.driveExists env.freeSpace
          env.archiveDiskSize with
      | some e => ⟨{}, [], [], [{}], true, some e⟩
      | none =>
          let stats0 : RestoreStats :=
            { total_files := env.archive.entries.length,
              total_size := restoreTotalSize env.archive.entries }
          let out := extract_loop stats0 [] env.archive.entries
          if out.cancelled then
            ⟨out.stats, out.written, stats0 :: out.trace,
             {} :: stats0 :: out.states, true, some .userCancelled⟩
          else
            ⟨out.stats, out.written, stats0 :: out.trace ++ [out.stats],
             {} :: stats0 :: out.states, true, none⟩

/-! ## Loop lemmas for the backup pipeline -/

/-- A `KeyboardInterrupt` anywhere in the plan escapes the write loop. -/
theorem write_loop_interrupted_of_cancel (plan : List PlanFile) :
    ∀ stats archive, (∃ f ∈ plan, f.event = .cancel) →
      (write_loop stats archive plan).interrupted = true := by
  induction plan with
  | nil => intro stats archive h; simp at h
  | cons f rest ih =>
      intro stats archive h
      by_cases hf : f.event = FileEvent.cancel
      · simp [write_loop, hf]
      · have hrest : ∃ g ∈ rest, g.event = FileEvent.cancel := by
          rcases h with ⟨g, hg, hge⟩
          rcases List.mem_cons.mp hg with hgf | hgr
          · exact absurd (hgf ▸ hge) hf
          · exact ⟨g, hgr, hge⟩
        simp [write_loop, hf, ih _ _ hrest]

/-- Closed form of the write loop on a plan whose reads all succeed:
no interrupt, every file processed, the archive extended by every entry in
plan order, and the callback firing exactly at the multiples of
`PROGRESS_UPDATE_INTERVAL`. -/
theorem write_loop_all_ok (plan : List PlanFile) :
    ∀ stats archive, (∀ f ∈ plan, f.event = .ok) →
      (write_loop stats archive plan).interrupted = false ∧
      (write_loop stats archive plan).stats.processed_files
        = stats.processed_files + plan.length ∧
      (write_loop stats archive plan).archive
        = archive ++ plan.map (fun f => (f.path, file_data f)) ∧
      (write_loop stats archive plan).trace.map (fun s => s.processed_files)
        = (List.range' (stats.processed_files + 1) plan.length).filter
            (fun k => decide (k % PROGRESS_UPDATE_INTERVAL = 0)) := by
  induction plan with
  | nil => intro stats archive _; simp [write_loop]
  | cons f rest ih =>
      intro stats archive hok
      have hf : f.event = FileEvent.ok := hok f (List.mem_cons_self f rest)
      have hrest : ∀ g ∈ rest, g.event = FileEvent.ok :=
        fun g hg => hok g (List.mem_cons_of_mem f hg)
      have hnc : ¬ f.event = FileEvent.cancel := by simp [hf]
      obtain ⟨h1, h2, h3, h4⟩ := ih
        { stats with
            processed_files := stats.processed_files + 1,
            processed_size := stats.processed_size + f.size }
        (archive ++ [(f.path, file_data f)]) hrest
      refine ⟨?_, ?_, ?_, ?_⟩
      · simp [write_loop, hnc, _add_file_to_archive, hf, h1]
      · simp [write_loop, hnc, _add_file_to_archive, hf, h2]
        omega
      · simp [write_loop, hnc, _add_file_to_archive, hf, h3]
      · have hlen : (f :: rest).length = rest.length + 1 := by simp
        rw [hlen, List.range'_succ, List.filter_cons]
        by_cases hm : (stats.processed_files + 1) % PROGRESS_UPDATE_INTERVAL = 0
        · simp [write_loop, hnc, _add_file_to_archive, hf, hm, h4]
        · simp [write_loop, hnc, _add_file_to_archive, hf, hm, h4]

/-- Every stats value reachable inside the write loop (including the final
one) keeps the planned totals and stays within them. -/
theorem write_loop_bound (plan : List PlanFile) :
    ∀ stats archive s,
      (s ∈ (write_loop stats archive plan).states
        ∨ s = (write_loop stats archive plan).stats) →
      s.total_files = stats.total_files ∧ s.total_size = stats.total_size ∧
      s.processed_files + s.skipped_files
        ≤ stats.processed_files + stats.skipped_files + plan.length ∧
      s.processed_size ≤ stats.processed_size + (plan.map (fun f => f.size)).sum := by
  induction plan with
  | nil =>
      intro stats archive s hs
      have : s = stats := by
        rcases hs with h | h
        · simp [write_loop] at h
        · simpa [write_loop] using h
      subst this
      simp
  | cons f rest ih =>
      intro stats archive s hs
      by_cases hc : f.event = FileEvent.cancel
      · have : s = stats := by
          rcases hs with h | h
          · simp [write_loop, hc] at h
          · simpa [write_loop, hc] using h
        subst this
        refine ⟨rfl, rfl, ?_, ?_⟩ <;> omega
      · cases hcase : f.event with
        | ok =>
          -- successful read
          have key :
              s ∈ (write_loop
                  { stats with
                      processed_files := stats.processed_files + 1,
                      processed_size := stats.processed_size + f.size }
                  (archive ++ [(f.path, file_data f)]) rest).states
              ∨ s = { stats with
                      processed_files := stats.processed_files + 1,
                      processed_size := stats.processed_size + f.size }
              ∨ s = (write_loop
                  { stats with
                      processed_files := stats.processed_files + 1,
                      processed_size := stats.processed_size + f.size }
                  (archive ++ [(f.path, file_data f)]) rest).stats := by
            rcases hs with h | h
            · simp [write_loop, hc, _add_file_to_archive, hcase] at h
              tauto
            · simp [write_loop, hc, _add_file_to_archive, hcase] at h
              tauto
          rcases key with h | h | h
          · obtain ⟨e1, e2, e3, e4⟩ := ih _ _ s (Or.inl h)
            simp at e1 e2 e3 e4
            exact ⟨e1, e2, by simp <;> omega, by simp <;> omega⟩
          · subst h
            refine ⟨rfl, rfl, ?_, ?_⟩ <;> simp <;> omega
          · obtain ⟨e1, e2, e3, e4⟩ := ih _ _ s (Or.inr h)
            simp at e1 e2 e3 e4
            exact ⟨e1, e2, by simp <;> omega, by simp <;> omega⟩
        | ioError =>
          -- read failure: the file is skipped
          have key :
              s ∈ (write_loop
                  { stats with skipped_files := stats.skipped_files + 1 }
                  archive rest).states
              ∨ s = { stats with skipped_files := stats.skipped_files + 1 }
              ∨ s = (write_loop
                  { stats with skipped_files := stats.skipped_files + 1 }
                  archive rest).stats := by
            rcases hs with h | h
            · simp [write_loop, hc, _add_file_to_archive, hcase] at h
              tauto
            · simp [write_loop, hc, _add_file_to_archive, hcase] at h
              tauto
          rcases key with h | h | h
          · obtain ⟨e1, e2, e3, e4⟩ := ih _ _ s (Or.inl h)
            simp at e1 e2 e3 e4
            exact ⟨e1, e2, by simp <;> omega, by simp <;> omega⟩
          · subst h
            refine ⟨rfl, rfl, ?_, ?_⟩ <;> simp <;> omega
          · obtain ⟨e1, e2, e3, e4⟩ := ih _ _ s (Or.inr h)
            simp at e1 e2 e3 e4
            exact ⟨e1, e2, by simp <;> omega, by simp <;> omega⟩
        | cancel => exact absurd hcase hc

/-! ## Loop lemmas for the restore pipeline -/

/-- The entries the extraction loop successfully extracts: non-directory
entries whose per-entry I/O succeeds. -/
def okEntries (es : List ZEntry) : List ZEntry :=
  es.filter (fun e => !e.isDir && decide (e.event = FileEvent.ok))

/-- The entries the extraction loop skips after a per-entry failure. -/
def errEntries (es : List ZEntry) : List ZEntry :=
  es.filter (fun e => !e.isDir && decide (e.event = FileEvent.ioError))

/-- Total declared size of the successfully extracted entries. -/
def okSize (es : List ZEntry) : Nat :=
  ((okEntries es).map (fun e => e.fileSize)).sum

/-- The destination files the extraction loop writes for a list of handled
entries. -/
def okWrites (es : List ZEntry) : List Entry :=
  (okEntries es).map (fun e => (e.name, e.content))

/-- The stats update the extraction loop performs on one handled entry. -/
def extract_step (stats : RestoreStats) (e : ZEntry) : RestoreStats :=
  if e.event = .cancel then stats
  else if e.isDir then stats
  else if e.event = .ioError then
    { stats with
        skipped_files := stats.skipped_files + 1,
        errors := stats.errors + 1 }
  else
    { stats with
        extracted_files := stats.extracted_files + 1,
        extracted_size := stats.extracted_size + e.fileSize }

/-- Every stats value reachable inside the extraction loop (including the
final one) is the fold of `extract_step` over a cancel-free prefix of the
entry list. -/
theorem extract_loop_reach (es : List ZEntry) :
    ∀ stats written s,
      (s ∈ (extract_loop stats written es).states
        ∨ s = (extract_loop stats written es).stats) →
      ∃ p q, p ++ q = es ∧ (∀ x ∈ p, x.event ≠ FileEvent.cancel) ∧
        s = p.foldl extract_step stats := by
  induction es with
  | nil =>
      intro stats written s hs
      have hse : s = stats := by
        rcases hs with h | h
        · simp [extract_loop] at h
        · simpa [extract_loop] using h
      exact ⟨[], [], rfl, by simp, by simp [hse]⟩
  | cons e rest ih =>
      intro stats written s hs
      by_cases hc : e.event = FileEvent.cancel
      · have hse : s = stats := by
          rcases hs with h | h
          · simp [extract_loop, hc] at h
          · simpa [extract_loop, hc] using h
        exact ⟨[], e :: rest, rfl, by simp, by simp [hse]⟩
      · by_cases hd : e.isDir
        · have key : s = stats
              ∨ (s ∈ (extract_loop stats written rest).states
                 ∨ s = (extract_loop stats written rest).stats) := by
            rcases hs with h | h
            · simp [extract_loop, hc, hd] at h
              tauto
            · simp [extract_loop, hc, hd] at h
              tauto
          rcases key with h | h
          · exact ⟨[], e :: rest, rfl, by simp, by simp [h]⟩
          · obtain ⟨p, q, hpq, hcf, hsf⟩ := ih stats written s h
            refine ⟨e :: p, q, by simp [hpq], ?_, ?_⟩
            · intro x hx
              rcases List.mem_cons.mp hx with hx | hx
              · exact hx ▸ hc
              · exact hcf x hx
            · simpa [extract_step, hc, hd] using hsf
        · by_cases he : e.event = FileEvent.ioError
          · have key : s = { stats with
                  skipped_files := stats.skipped_files + 1,
                  errors := stats.errors + 1 }
                ∨ (s ∈ (extract_loop
                      { stats with
                          skipped_files := stats.skipped_files + 1,
                          errors := stats.errors + 1 } written rest).states
                   ∨ s = (extract_loop
                      { stats with
                          skipped_files := stats.skipped_files + 1,
                          errors := stats.errors + 1 } written rest).stats) := by
              rcases hs with h | h
              · simp [extract_loop, hc, hd, he] at h
                tauto
              · simp [extract_loop, hc, hd, he] at h
                tauto
            rcases key with h | h
            · exact ⟨[e], rest, rfl, by simp [hc],
                by simp [extract_step, hc, hd, he, h]⟩
            · obtain ⟨p, q, hpq, hcf, hsf⟩ := ih _ written s h
              refine ⟨e :: p, q, by simp [hpq], ?_, ?_⟩
              · intro x hx
                rcases List.mem_cons.mp hx with hx | hx
                · exact hx ▸ hc
                · exact hcf x hx
              · simpa [extract_step, hc, hd, he] using hsf
          · have key : s = { stats with
                  extracted_files := stats.extracted_files + 1,
                  extracted_size := stats.extracted_size + e.fileSize }
                ∨ (s ∈ (extract_loop
                      { stats with
                          extracted_files := stats.extracted_files + 1,
                          extracted_size := stats.extracted_size + e.fileSize }
                      (written ++ [(e.name, e.content)]) rest).states
                   ∨ s = (extract_loop
                      { stats with
                          extracted_files := stats.extracted_files + 1,
                          extracted_size := stats.extracted_size + e.fileSize }
                      (written ++ [(e.name, e.content)]) rest).stats) := by
              rcases hs with h | h
              · simp [extract_loop, hc, hd, he] at h
                tauto
              · simp [extract_loop, hc, hd, he] at h
                tauto
            rcases key with h | h
            · exact ⟨[e], rest, rfl, by simp [hc],
                by simp [extract_step, hc, hd, he, h]⟩
            · obtain ⟨p, q, hpq, hcf, hsf⟩ := ih _ _ s h
              refine ⟨e :: p, q, by simp [hpq], ?_, ?_⟩
              · intro x hx
                rcases List.mem_cons.mp hx with hx | hx
                · exact hx ▸ hc
                · exact hcf x hx
              · simpa [extract_step, hc, hd, he] using hsf

/-- Closed form of folding `extract_step` over a cancel-free entry list. -/
theorem foldl_extract_step_spec (p : List ZEntry) :
    ∀ stats, (∀ x ∈ p, x.event ≠ FileEvent.cancel) →
      (p.foldl extract_step stats).total_files = stats.total_files ∧
      (p.foldl extract_step stats).total_size = stats.total_size ∧
      (p.foldl extract_step stats).extracted_files
        = stats.extracted_files + (okEntries p).length ∧
      (p.foldl extract_step stats).extracted_size
        = stats.extracted_size + okSize p ∧
      (p.foldl extract_step stats).skipped_files
        = stats.skipped_files + (errEntries p).length := by
  induction p with
  | nil => intro stats _; simp [okEntries, errEntries, okSize]
  | cons e rest ih =>
      intro stats hcf
      have hc : e.event ≠ FileEvent.cancel := hcf e (List.mem_cons_self e rest)
      have hrest : ∀ x ∈ rest, x.event ≠ FileEvent.cancel :=
        fun x hx => hcf x (List.mem_cons_of_mem e hx)
      by_cases hd : e.isDir
      · obtain ⟨a1, a2, a3, a4, a5⟩ := ih stats hrest
        refine ⟨?_, ?_, ?_, ?_, ?_⟩ <;>
          simp [extract_step, hc, hd, okEntries, errEntries, okSize,
            List.filter_cons, a1, a2, a3, a4, a5] <;>
          simp [okEntries, okSize] at a3 a4 a5 <;> omega
      · by_cases he : e.event = FileEvent.ioError
        · obtain ⟨a1, a2, a3, a4, a5⟩ := ih
            { stats with
                skipped_files := stats.skipped_files + 1,
                errors := stats.errors + 1 } hrest
          refine ⟨?_, ?_, ?_, ?_, ?_⟩ <;>
            simp [extract_step, hc, hd, he, okEntries, errEntries, okSize,
              List.filter_cons, a1, a2, a3, a4, a5] <;>
            simp [okEntries, errEntries, okSize] at a3 a4 a5 <;> omega
        · obtain ⟨a1, a2, a3, a4, a5⟩ := ih
            { stats with
                extracted_files := stats.extracted_files + 1,
                extracted_size := stats.extracted_size + e.fileSize } hrest
          have hok : e.event = FileEvent.ok := by
            cases hcase : e.event
            · rfl
            · exact absurd hcase he
            · exact absurd hcase hc
          refine ⟨?_, ?_, ?_, ?_, ?_⟩ <;>
            simp [extract_step, hc, hd, he, hok, okEntries, errEntries, okSize,
              List.filter_cons, a1, a2, a3, a4, a5] <;>
            simp [okEntries, errEntries, okSize] at a3 a4 a5 <;> omega

/-- A `KeyboardInterrupt` at entry `e` stops the extraction loop: the loop
reports the interrupt and the destination holds exactly the files extracted
from the cancel-free part before `e`. -/
theorem extract_loop_cancel_split (es1 : List ZEntry) :
    ∀ stats written (e : ZEntry) es2,
      (∀ x ∈ es1, x.event ≠ FileEvent.cancel) → e.event = FileEvent.cancel →
      (extract_loop stats written (es1 ++ e :: es2)).cancelled = true ∧
      (extract_loop stats written (es1 ++ e :: es2)).written
        = written ++ okWrites es1 := by
  induction es1 with
  | nil =>
      intro stats written e es2 _ he
      simp [extract_loop, he, okWrites, okEntries]
  | cons x rest ih =>
      intro stats written e es2 hcf he
      have hx : x.event ≠ FileEvent.cancel := hcf x (List.mem_cons_self x rest)
      have hrest : ∀ y ∈ rest, y.event ≠ FileEvent.cancel :=
        fun y hy => hcf y (List.mem_cons_of_mem x hy)
      by_cases hd : x.isDir
      · obtain ⟨b1, b2⟩ := ih stats written e es2 hrest he
        constructor <;>
          simp [extract_loop, hx, hd, okWrites, okEntries, List.filter_cons,
            b1, b2] <;>
          simp [okWrites, okEntries] at b2 <;> simp [b2]
      · by_cases hio : x.event = FileEvent.ioError
        · obtain ⟨b1, b2⟩ := ih
            { stats with
                skipped_files := stats.skipped_files + 1,
                errors := stats.errors + 1 } written e es2 hrest he
          constructor <;>
            simp [extract_loop, hx, hd, hio, okWrites, okEntries,
              List.filter_cons, b1, b2] <;>
            simp [okWrites, okEntries] at b2 <;> simp [b2]
        · have hok : x.event = FileEvent.ok := by
            cases hcase : x.event
            · rfl
            · exact absurd hcase hio
            · exact absurd hcase hx
          obtain ⟨b1, b2⟩ := ih
            { stats with
                extracted_files := stats.extracted_files + 1,
                extracted_size := stats.extracted_size + x.fileSize }
            (written ++ [(x.name, x.content)]) e es2 hrest he
          constructor <;>
            simp [extract_loop, hx, hd, hio, hok, okWrites, okEntries,
              List.filter_cons, b1, b2] <;>
            simp [okWrites, okEntries] at b2 <;> simp [b2]

/-- Closed form of the extraction loop on an archive whose entries are all
regular files and all extract successfully: no interrupt, every entry
extracted and written in order, and the callback firing exactly when the
running count is a multiple of `PROGRESS_UPDATE_INTERVAL` or reaches
`total_files`. -/
theorem extract_loop_all_ok (es : List ZEntry) :
    ∀ stats written,
      (∀ e ∈ es, e.isDir = false ∧ e.event = FileEvent.ok) →
      (extract_loop stats written es).cancelled = false ∧
      (extract_loop stats written es).stats.extracted_files
        = stats.extracted_files + es.length ∧
      (extract_loop stats written es).written
        = written ++ es.map (fun e => (e.name, e.content)) ∧
      (extract_loop stats written es).trace.map (fun s => s.extracted_files)
        = (List.range' (stats.extracted_files + 1) es.length).filter
            (fun k => decide (k % PROGRESS_UPDATE_INTERVAL = 0
              ∨ k = stats.total_files)) := by
  induction es with
  | nil => intro stats written _; simp [extract_loop]
  | cons e rest ih =>
      intro stats written hok
      have hd : e.isDir = false := (hok e (List.mem_cons_self e rest)).1
      have he : e.event = FileEvent.ok := (hok e (List.mem_cons_self e rest)).2
      have hrest : ∀ x ∈ rest, x.isDir = false ∧ x.event = FileEvent.ok :=
        fun x hx => hok x (List.mem_cons_of_mem e hx)
      obtain ⟨h1, h2, h3, h4⟩ := ih
        { stats with
            extracted_files := stats.extracted_files + 1,
            extracted_size := stats.extracted_size + e.fileSize }
        (written ++ [(e.name, e.content)]) hrest
      refine ⟨?_, ?_, ?_, ?_⟩
      · simp [extract_loop, he, hd, h1]
      · simp [extract_loop, he, hd, h2]
        omega
      · simp [extract_loop, he, hd, h3]
      · have hlen : (e :: rest).length = rest.length + 1 := by simp
        rw [hlen, List.range'_succ, List.filter_cons]
        by_cases hm : (stats.extracted_files + 1) % PROGRESS_UPDATE_INTERVAL = 0
            ∨ stats.extracted_files + 1 = stats.total_files
        · simp [extract_loop, he, hd, hm, h4]
        · simp [extract_loop, he, hd, hm, h4]

/-- Extracted and skipped entries are disjoint subsets of the handled
entries. -/
theorem okErr_length_le (p : List ZEntry) :
    (okEntries p).length + (errEntries p).length ≤ p.length := by
  induction p with
  | nil => simp [okEntries, errEntries]
  | cons e rest ih =>
      by_cases hd : e.isDir
      · simp [okEntries, errEntries, List.filter_cons, hd] at *
        omega
      · cases he : e.event <;>
          simp [okEntries, errEntries, List.filter_cons, hd, he] at * <;>
          omega

/-- Every intermediate `self.stats` of a backup run keeps
`processed_files + skipped_files` within `total_files` and
`processed_size` within `total_size`. -/
theorem backup_reachable (env : BackupEnv) :
    ∀ s ∈ (create_archive env).states,
      s.processed_files + s.skipped_files ≤ s.total_files ∧
      s.processed_size ≤ s.total_size := by
  intro s hs
  unfold create_archive at hs
  cases hv : validate_source env.sourceExists env.sourceIsDir with
  | some e =>
      rw [hv] at hs
      simp at hs
      subst hs
      simp
  | none =>
      rw [hv] at hs
      cases hk : check_disk_space env.parentExists env.freeSpace
          (calculate_total_size env.plan).total_size with
      | some e =>
          rw [hk] at hs
          simp at hs
          rcases hs with h | h <;> subst h <;> simp [calculate_total_size]
      | none =>
          rw [hk] at hs
          have bound := fun s h =>
            write_loop_bound env.plan (calculate_total_size env.plan) [] s h
          by_cases hi :
              (write_loop (calculate_total_size env.plan) [] env.plan).interrupted
                = true
          · simp [hi] at hs
            rcases hs with h | h | h
            · subst h; simp
            · subst h; simp [calculate_total_size]
            · obtain ⟨e1, e2, e3, e4⟩ := bound s (Or.inl h)
              simp [calculate_total_size] at e1 e2 e3 e4
              constructor <;> omega
          · simp [hi] at hs
            rcases hs with h | h | h | h
            · subst h; simp
            · subst h; simp [calculate_total_size]
            · obtain ⟨e1, e2, e3, e4⟩ := bound s (Or.inl h)
              simp [calculate_total_size] at e1 e2 e3 e4
              constructor <;> omega
            · obtain ⟨e1, e2, e3, e4⟩ := bound _ (Or.inr rfl)
              simp [calculate_total_size] at e1 e2 e3 e4
              subst h
              constructor <;> simp [calculate_total_size] <;> omega

/-- Every intermediate `self.stats` of a restore run keeps
`extracted_files + skipped_files` within `total_files`, and can only report
every file extracted once every planned byte is extracted. -/
theorem restore_reachable (env : RestoreEnv) :
    ∀ s ∈ (extract_archive env).states,
      s.extracted_files + s.skipped_files ≤ s.total_files ∧
      (s.extracted_files = s.total_files → s.extracted_size = s.total_size) := by
  intro s hs
  unfold extract_archive at hs
  cases hv : validate_archive env.archiveExists env.archiveIsFile env.archive
      env.pwd with
  | some e =>
      rw [hv] at hs
      simp at hs
      subst hs
      simp
  | none =>
      rw [hv] at hs
      cases hk : restore_check_disk_space env.driveExists env.freeSpace
          env.archiveDiskSize with
      | some e =>
          rw [hk] at hs
          simp at hs
          subst hs
          simp
      | none =>
          rw [hk] at hs
          have main : s = ({} : RestoreStats)
              ∨ s = ({ total_files := env.archive.entries.length,
                       total_size := restoreTotalSize env.archive.entries }
                     : RestoreStats)
              ∨ (s ∈ (extract_loop
                    { total_files := env.archive.entries.length,
                      total_size := restoreTotalSize env.archive.entries } []
                    env.archive.entries).states
                 ∨ s = (extract_loop
                    { total_files := env.archive.entries.length,
                      total_size := restoreTotalSize env.archive.entries } []
                    env.archive.entries).stats) := by
            by_cases hi :
                (extract_loop
                  { total_files := env.archive.entries.length,
                    total_size := restoreTotalSize env.archive.entries } []
                  env.archive.entries).cancelled = true
            · simp [hi] at hs
              tauto
            · simp [hi] at hs
              tauto
          rcases main with h | h | h
          · subst h; simp
          · subst h
            refine ⟨by simp, ?_⟩
            intro hz
            simp at hz ⊢
            have : env.archive.entries = [] :=
              List.length_eq_zero.mp hz.symm
            simp [this, restoreTotalSize]
          · obtain ⟨p, q, hpq, hcf, hsf⟩ :=
              extract_loop_reach env.archive.entries _ [] s h
            obtain ⟨e1, e2, e3, e4, e5⟩ := foldl_extract_step_spec p _ hcf
            rw [← hsf] at e1 e2 e3 e4 e5
            simp at e1 e2 e3 e4 e5
            have hple : p.length ≤ env.archive.entries.length := by
              rw [← hpq]
              simp
            have hok_le : (okEntries p).length ≤ p.length :=
              List.length_filter_le _ p
            have herr := okErr_length_le p
            refine ⟨by omega, ?_⟩
            intro hall
            rw [e3, e1, e4, e2] at *
            -- every entry was extracted: the prefix is the whole list and
            -- consists of successfully extracted regular files
            have hqnil : q = [] := by
              apply List.length_eq_zero.mp
              have := List.length_append p q
              rw [hpq] at this
              omega
            have hpall : p = env.archive.entries := by
              rw [← hpq, hqnil, List.append_nil]
            have hlen_eq : (okEntries p).length = p.length := by
              rw [hpall] at hall ⊢
              omega
            have hfull : okEntries p = p :=
              (List.filter_sublist p).eq_of_length hlen_eq
            have hpred : ∀ x ∈ p,
                (!x.isDir && decide (x.event = FileEvent.ok)) = true :=
              List.filter_eq_self.mp hfull
            have hnodir : ∀ x ∈ p, x.isDir = false := by
              intro x hx
              have := hpred x hx
              simp at this
              exact this.1
            have hfd : p.filter (fun e => !e.isDir) = p := by
              apply List.filter_eq_self.mpr
              intro a ha
              simp [hnodir a ha]
            have hsz : restoreTotalSize p = okSize p := by
              unfold restoreTotalSize okSize
              rw [hfull, hfd]
            have hps : okSize p = okSize env.archive.entries := by
              rw [hpall]
            rw [hpall] at hsz
            omega

/-! ## Percentage lemmas -/

/-- Backup progress is never negative. -/
theorem archive_percent_nonneg (s : ArchiveStats) : 0 ≤ s.progress_percent := by
  unfold ArchiveStats.progress_percent
  split
  · norm_num
  · positivity

/-- Backup progress stays at most 100 while the processed bytes stay within
the planned bytes. -/
theorem archive_percent_le_100 (s : ArchiveStats)
    (h : s.processed_size ≤ s.total_size) : s.progress_percent ≤ 100 := by
  unfold ArchiveStats.progress_percent
  split
  · norm_num
  · rename_i h0
    have ht : (0 : ℚ) < (s.total_size : ℚ) := by
      exact_mod_cast Nat.pos_of_ne_zero h0
    have hd : (s.processed_size : ℚ) / (s.total_size : ℚ) ≤ 1 := by
      rw [div_le_one ht]
      exact_mod_cast h
    nlinarith

/-- Backup progress reads 100 only when every planned byte is processed. -/
theorem archive_percent_eq_100 (s : ArchiveStats)
    (h : s.progress_percent = 100) : s.processed_size = s.total_size := by
  unfold ArchiveStats.progress_percent at h
  by_cases h0 : s.total_size = 0
  · rw [if_pos h0] at h
    norm_num at h
  · rw [if_neg h0] at h
    have ht : (s.total_size : ℚ) ≠ 0 := by
      exact_mod_cast h0
    have : (s.processed_size : ℚ) = (s.total_size : ℚ) := by
      field_simp at h
      linarith
    exact_mod_cast this

/-- Restore progress is never negative. -/
theorem restore_percent_nonneg (s : RestoreStats) : 0 ≤ s.progress_percent := by
  unfold RestoreStats.progress_percent
  split
  · norm_num
  · positivity

/-- Restore progress stays at most 100 while the extracted count stays
within the entry count. -/
theorem restore_percent_le_100 (s : RestoreStats)
    (h : s.extracted_files ≤ s.total_files) : s.progress_percent ≤ 100 := by
  unfold RestoreStats.progress_percent
  split
  · norm_num
  · rename_i h0
    have ht : (0 : ℚ) < (s.total_files : ℚ) := by
      exact_mod_cast Nat.pos_of_ne_zero h0
    have hd : (s.extracted_files : ℚ) / (s.total_files : ℚ) ≤ 1 := by
      rw [div_le_one ht]
      exact_mod_cast h
    nlinarith

/-- Restore progress reads 100 only when every entry is extracted. -/
theorem restore_percent_eq_100 (s : RestoreStats)
    (h : s.progress_percent = 100) : s.extracted_files = s.total_files := by
  unfold RestoreStats.progress_percent at h
  by_cases h0 : s.total_files = 0
  · rw [if_pos h0] at h
    norm_num at h
  · rw [if_neg h0] at h
    have ht : (s.total_files : ℚ) ≠ 0 := by
      exact_mod_cast h0
    have : (s.extracted_files : ℚ) = (s.total_files : ℚ) := by
      field_simp at h
      linarith
    exact_mod_cast this

/-! ## Claim theorems -/

/-- Claim C4: at every point during a backup
`processed_files + skipped_files ≤ total_files` holds on the stats, and at
every point during a restore `extracted_files + skipped_files ≤
total_files` holds. -/
theorem claim_C4_counter_invariant (benv : BackupEnv) (renv : RestoreEnv) :
    (∀ s ∈ (create_archive benv).states,
      s.processed_files + s.skipped_files ≤ s.total_files) ∧
    (∀ s ∈ (extract_archive renv).states,
      s.extracted_files + s.skipped_files ≤ s.total_files) :=
  ⟨fun s hs => (backup_reachable benv s hs).1,
   fun s hs => (restore_reachable renv s hs).1⟩

/-- Environment of a small successful backup run used by witnesses. -/
def wBenv : BackupEnv :=
  { sourceExists := true, sourceIsDir := true, parentExists := false,
    freeSpace := 0, archiveDiskSize := 0,
    plan := [{ path := "file1.txt", size := 2, content := [104, 105],
               event := .ok }] }

/-- Environment of a small successful restore run used by witnesses. -/
def wRenv : RestoreEnv :=
  { archiveExists := true, archiveIsFile := true, driveExists := false,
    freeSpace := 0, archiveDiskSize := 0,
    archive := { entries := [{ name := "file1.txt", isDir := false,
                               fileSize := 2, content := [104, 105],
                               event := .ok }],
                 protection := none },
    pwd := none }

/-- Witness for C4 at the initial stats of two concrete runs. -/
theorem claim_C4_witness :
    ({} : ArchiveStats).processed_files + ({} : ArchiveStats).skipped_files
      ≤ ({} : ArchiveStats).total_files ∧
    ({} : RestoreStats).extracted_files + ({} : RestoreStats).skipped_files
      ≤ ({} : RestoreStats).total_files :=
  ⟨(claim_C4_counter_invariant wBenv wRenv).1 {} (by decide),
   (claim_C4_counter_invariant wBenv wRenv).2 {} (by decide)⟩

/-- Claim C5, amended: for every reachable intermediate state of either
pipeline `progress_percent` lies in `[0, 100]`; the backup percentage is
`processed_size / total_size * 100` (`0` when `total_size = 0`) and is 100
only once all planned bytes are processed; the restore percentage is
`extracted_files / total_files * 100` (`0` when `total_files = 0`, a ratio
of file counts, not of bytes as claimed) and is 100 only once every entry,
and with it every planned byte, is extracted. -/
theorem claim_C5_amended_progress (benv : BackupEnv) (renv : RestoreEnv) :
    (∀ s ∈ (create_archive benv).states,
      0 ≤ s.progress_percent ∧ s.progress_percent ≤ 100 ∧
      s.progress_percent
        = (if s.total_size = 0 then 0
           else ((s.processed_size : ℚ) / (s.total_size : ℚ)) * 100) ∧
      (s.progress_percent = 100 → s.processed_size = s.total_size)) ∧
    (∀ s ∈ (extract_archive renv).states,
      0 ≤ s.progress_percent ∧ s.progress_percent ≤ 100 ∧
      s.progress_percent
        = (if s.total_files = 0 then 0
           else ((s.extracted_files : ℚ) / (s.total_files : ℚ)) * 100) ∧
      (s.progress_percent = 100 →
        s.extracted_files = s.total_files ∧
        s.extracted_size = s.total_size)) := by
  constructor
  · intro s hs
    obtain ⟨h1, h2⟩ := backup_reachable benv s hs
    exact ⟨archive_percent_nonneg s, archive_percent_le_100 s h2, rfl,
      archive_percent_eq_100 s⟩
  · intro s hs
    obtain ⟨h1, h2⟩ := restore_reachable renv s hs
    refine ⟨restore_percent_nonneg s, restore_percent_le_100 s (by omega),
      rfl, ?_⟩
    intro hp
    have hf := restore_percent_eq_100 s hp
    exact ⟨hf, h2 hf⟩

/-- Witness for the amended C5 at the initial stats of two concrete runs. -/
theorem claim_C5_witness :
    (0 ≤ ({} : ArchiveStats).progress_percent ∧
      ({} : ArchiveStats).progress_percent ≤ 100 ∧
      ({} : ArchiveStats).progress_percent
        = (if ({} : ArchiveStats).total_size = 0 then 0
           else ((({} : ArchiveStats).processed_size : ℚ)
              / (({} : ArchiveStats).total_size : ℚ)) * 100) ∧
      (({} : ArchiveStats).progress_percent = 100 →
        ({} : ArchiveStats).processed_size = ({} : ArchiveStats).total_size)) ∧
    (0 ≤ ({} : RestoreStats).progress_percent ∧
      ({} : RestoreStats).progress_percent ≤ 100 ∧
      ({} : RestoreStats).progress_percent
        = (if ({} : RestoreStats).total_files = 0 then 0
           else ((({} : RestoreStats).extracted_files : ℚ)
              / (({} : RestoreStats).total_files : ℚ)) * 100) ∧
      (({} : RestoreStats).progress_percent = 100 →
        ({} : RestoreStats).extracted_files = ({} : RestoreStats).total_files ∧
        ({} : RestoreStats).extracted_size = ({} : RestoreStats).total_size)) :=
  ⟨(claim_C5_amended_progress wBenv wRenv).1 {} (by decide),
   (claim_C5_amended_progress wBenv wRenv).2 {} (by decide)⟩

/-- Environment whose archive holds one empty regular file: the run reaches
a state with `total_size = 0` but a complete extraction. -/
def cRenv5 : RestoreEnv :=
  { archiveExists := true, archiveIsFile := true, driveExists := false,
    freeSpace := 0, archiveDiskSize := 0,
    archive := { entries := [{ name := "empty.txt", isDir := false,
                               fileSize := 0, content := [],
                               event := .ok }],
                 protection := none },
    pwd := none }

/-- The reachable restore state refuting the claimed formula. -/
def c5State : RestoreStats :=
  { total_files := 1, extracted_files := 1, total_size := 0,
    extracted_size := 0, skipped_files := 0, errors := 0 }

/-- Counterexample to C5 as stated: the restore pipeline reaches a state
with `total_size = 0` whose `progress_percent` is `100`, while the claimed
formula (`processed_size/total_size * 100`, and `0` when `total_size = 0`)
demands `0` there — restore progress is computed from file counts, not
bytes. -/
theorem claim_C5_counterexample :
    c5State ∈ (extract_archive cRenv5).states ∧
    c5State.total_size = 0 ∧
    c5State.progress_percent = 100 ∧
    ¬ c5State.progress_percent = 0 := by
  refine ⟨by decide, rfl, ?_, ?_⟩
  · norm_num [RestoreStats.progress_percent, c5State]
  · norm_num [RestoreStats.progress_percent, c5State]

/-- Claim C10: when the directory used for the free-space measurement does
not exist (the archive's parent for backup, the target drive anchor or
target's parent for restore), `check_disk_space` returns without raising,
whatever the free space and sizes are: the preflight is silently skipped. -/
theorem claim_C10_missing_dir_skips_preflight :
    (∀ freeSpace total_size,
      check_disk_space false freeSpace total_size = none) ∧
    (∀ freeSpace archiveSize,
      restore_check_disk_space false freeSpace archiveSize = none) :=
  ⟨fun _ _ => rfl, fun _ _ => rfl⟩

/-- Claim C8: the backup preflight estimates the required free space as
`total_size * 0.5 * 1.1` (truncated to an integer, as `int()` does) and,
when validation passed and the destination parent exists, the pipeline
aborts with the insufficient-space error exactly when the free space is
below that estimate; otherwise it proceeds to the write phase (the initial
progress callback fires). -/
theorem claim_C8_space_preflight (env : BackupEnv)
    (hse : env.sourceExists = true) (hsd : env.sourceIsDir = true)
    (hp : env.parentExists = true) :
    (∀ freeSpace total_size,
      check_disk_space true freeSpace total_size
        = (if (freeSpace : ℤ) < estimated_size total_size
           then some BackupError.insufficientSpace else none)) ∧
    ((create_archive env).error = some BackupError.insufficientSpace ↔
      (env.freeSpace : ℤ)
        < estimated_size (calculate_total_size env.plan).total_size) ∧
    (¬ (env.freeSpace : ℤ)
        < estimated_size (calculate_total_size env.plan).total_size →
      (create_archive env).trace ≠ []) := by
  have hform : ∀ freeSpace total_size : Nat,
      check_disk_space true freeSpace total_size
        = (if (freeSpace : ℤ) < estimated_size total_size
           then some BackupError.insufficientSpace else none) := by
    intro freeSpace total_size
    rfl
  refine ⟨hform, ?_, ?_⟩
  · unfold create_archive
    rw [hse, hsd, hp]
    have hv : validate_source true true = none := rfl
    rw [hv, hform]
    by_cases hlt : (env.freeSpace : ℤ)
        < estimated_size (calculate_total_size env.plan).total_size
    · simp [hlt]
    · rw [if_neg hlt]
      simp only
      constructor
      · intro he
        by_cases hi :
            (write_loop (calculate_total_size env.plan) [] env.plan).interrupted
              = true
        · simp [hi] at he
        · simp [hi] at he
      · intro h
        exact absurd h hlt
  · intro hge
    unfold create_archive
    rw [hse, hsd, hp]
    have hv : validate_source true true = none := rfl
    rw [hv, hform, if_neg hge]
    by_cases hi :
        (write_loop (calculate_total_size env.plan) [] env.plan).interrupted
          = true
    · simp [hi]
    · simp [hi]

/-- Environment of a backup run whose destination parent exists and has
ample free space. -/
def wBenv8 : BackupEnv :=
  { sourceExists := true, sourceIsDir := true, parentExists := true,
    freeSpace := 1000000, archiveDiskSize := 0,
    plan := [{ path := "file1.txt", size := 2, content := [104, 105],
               event := .ok }] }

/-- Witness for C8 at a concrete environment. -/
theorem claim_C8_witness :
    (∀ freeSpace total_size,
      check_disk_space true freeSpace total_size
        = (if (freeSpace : ℤ) < estimated_size total_size
           then some BackupError.insufficientSpace else none)) ∧
    ((create_archive wBenv8).error = some BackupError.insufficientSpace ↔
      (wBenv8.freeSpace : ℤ)
        < estimated_size (calculate_total_size wBenv8.plan).total_size) ∧
    (¬ (wBenv8.freeSpace : ℤ)
        < estimated_size (calculate_total_size wBenv8.plan).total_size →
      (create_archive wBenv8).trace ≠ []) :=
  claim_C8_space_preflight wBenv8 rfl rfl rfl

/-- Claim C3: opening a password-protected, non-empty archive with a wrong
or missing password surfaces the distinguishable
password-required-or-incorrect condition from `validate_archive`, and the
restore pipeline extracts nothing: no entry is written to the destination
before the failure is raised. -/
theorem claim_C3_wrong_password (env : RestoreEnv) (p : Bytes)
    (hae : env.archiveExists = true) (haf : env.archiveIsFile = true)
    (hprot : env.archive.protection = some p)
    (hwrong : ¬ env.pwd = some p)
    (hne : env.archive.entries ≠ []) :
    (extract_archive env).error
      = some RestoreError.passwordRequiredOrIncorrect ∧
    (extract_archive env).written = [] := by
  have hopen : open_archive env.archive env.pwd
      = .error .passwordRequiredOrIncorrect := by
    unfold open_archive
    rw [hprot]
    have hemp : env.archive.entries.isEmpty = false := by
      simp [List.isEmpty_iff]
      exact hne
    simp [hemp, hwrong]
  have hval : validate_archive env.archiveExists env.archiveIsFile
      env.archive env.pwd = some .passwordRequiredOrIncorrect := by
    rw [hae, haf]
    simp [validate_archive, hopen]
  unfold extract_archive
  rw [hval]
  exact ⟨rfl, rfl⟩

/-- Environment of a restore run against a password-protected archive with
no password supplied. -/
def cRenv3 : RestoreEnv :=
  { archiveExists := true, archiveIsFile := true, driveExists := false,
    freeSpace := 0, archiveDiskSize := 0,
    archive := { entries := [{ name := "secret.txt", isDir := false,
                               fileSize := 2, content := [104, 105],
                               event := .ok }],
                 protection := some [42] },
    pwd := none }

/-- Witness for C3 at a concrete protected archive and missing password. -/
theorem claim_C3_witness :
    (extract_archive cRenv3).error
      = some RestoreError.passwordRequiredOrIncorrect ∧
    (extract_archive cRenv3).written = [] :=
  claim_C3_wrong_password cRenv3 [42] rfl rfl rfl (by decide) (by decide)

/-- Claim C2: a `KeyboardInterrupt` during the write phase of a backup
makes the pipeline delete the partially-written archive file (no archive
file is left on disk) and re-raise the cancellation; a `KeyboardInterrupt`
during extraction makes the restore pipeline close the archive handle,
leave the files extracted before the interrupt in place, and re-raise. -/
theorem claim_C2_cancel_cleanup
    (benv : BackupEnv)
    (hbse : benv.sourceExists = true) (hbsd : benv.sourceIsDir = true)
    (hbcheck : check_disk_space benv.parentExists benv.freeSpace
        (calculate_total_size benv.plan).total_size = none)
    (hcancel : ∃ f ∈ benv.plan, f.event = FileEvent.cancel)
    (renv : RestoreEnv)
    (hae : renv.archiveExists = true) (haf : renv.archiveIsFile = true)
    (hopen : open_archive renv.archive renv.pwd = .ok ())
    (hrcheck : restore_check_disk_space renv.driveExists renv.freeSpace
        renv.archiveDiskSize = none)
    (es1 : List ZEntry) (e : ZEntry) (es2 : List ZEntry)
    (hsplit : renv.archive.entries = es1 ++ e :: es2)
    (hnc : ∀ x ∈ es1, x.event ≠ FileEvent.cancel)
    (hec : e.event = FileEvent.cancel) :
    ((create_archive benv).error = some BackupError.userCancelled ∧
     (create_archive benv).archiveFile = none) ∧
    ((extract_archive renv).error = some RestoreError.userCancelled ∧
     (extract_archive renv).archiveClosed = true ∧
     (extract_archive renv).written = okWrites es1) := by
  constructor
  · have hi := write_loop_interrupted_of_cancel benv.plan
      (calculate_total_size benv.plan) [] hcancel
    unfold create_archive
    rw [hbse, hbsd]
    have hv : validate_source true true = none := rfl
    rw [hv, hbcheck]
    simp [hi]
  · have hval : validate_archive renv.archiveExists renv.archiveIsFile
        renv.archive renv.pwd = none := by
      rw [hae, haf]
      simp [validate_archive, hopen]
    unfold extract_archive
    rw [hval, hrcheck, hsplit]
    obtain ⟨b1, b2⟩ := extract_loop_cancel_split es1
      { total_files := (es1 ++ e :: es2).length,
        total_size := restoreTotalSize (es1 ++ e :: es2) } [] e es2 hnc hec
    simp only [List.length_append, List.length_cons] at b1 b2
    simp [b1, b2]

/-- Environment of a backup run interrupted at its only file. -/
def cBenv2 : BackupEnv :=
  { sourceExists := true, sourceIsDir := true, parentExists := false,
    freeSpace := 0, archiveDiskSize := 0,
    plan := [{ path := "file1.txt", size := 2, content := [104, 105],
               event := .cancel }] }

/-- Environment of a restore run interrupted at its second entry. -/
def cRenv2 : RestoreEnv :=
  { archiveExists := true, archiveIsFile := true, driveExists := false,
    freeSpace := 0, archiveDiskSize := 0,
    archive := { entries := [{ name := "kept.txt", isDir := false,
                               fileSize := 1, content := [55],
                               event := .ok },
                             { name := "cut.txt", isDir := false,
                               fileSize := 1, content := [56],
                               event := .cancel }],
                 protection := none },
    pwd := none }

/-- Witness for C2 at two concrete interrupted runs. -/
theorem claim_C2_witness :
    ((create_archive cBenv2).error = some BackupError.userCancelled ∧
     (create_archive cBenv2).archiveFile = none) ∧
    ((extract_archive cRenv2).error = some RestoreError.userCancelled ∧
     (extract_archive cRenv2).archiveClosed = true ∧
     (extract_archive cRenv2).written
       = okWrites [{ name := "kept.txt", isDir := false, fileSize := 1,
                     content := [55], event := .ok }]) :=
  claim_C2_cancel_cleanup cBenv2 rfl rfl rfl (by decide)
    cRenv2 rfl rfl rfl rfl
    [{ name := "kept.txt", isDir := false, fileSize := 1, content := [55],
       event := .ok }]
    { name := "cut.txt", isDir := false, fileSize := 1, content := [56],
      event := .cancel }
    [] rfl (by decide) rfl

/-- Number of files whose read succeeded (and which were therefore
processed) among the first `i` files of the plan. -/
def processedAfter (plan : List PlanFile) (i : Nat) : Nat :=
  ((plan.take i).filter (fun f => decide (f.event = FileEvent.ok))).length

/-- Number of successfully extracted regular-file entries among the first
`i` entries of the archive. -/
def extractedAfter (es : List ZEntry) (i : Nat) : Nat :=
  (okEntries (es.take i)).length

/-- Before any file is handled nothing is processed. -/
theorem processedAfter_zero (plan : List PlanFile) :
    processedAfter plan 0 = 0 := rfl

/-- Before any entry is handled nothing is extracted. -/
theorem extractedAfter_zero (es : List ZEntry) :
    extractedAfter es 0 = 0 := rfl

/-- Prefix counts step over the head of the plan. -/
theorem processedAfter_cons (f : PlanFile) (rest : List PlanFile) (i : Nat) :
    processedAfter (f :: rest) (i + 1)
      = (if f.event = FileEvent.ok then 1 else 0) + processedAfter rest i := by
  unfold processedAfter
  rw [List.take_succ_cons, List.filter_cons]
  by_cases h : f.event = FileEvent.ok
  · simp [h]
    omega
  · simp [h]

/-- Prefix counts step over the head of the entry list. -/
theorem extractedAfter_cons (e : ZEntry) (rest : List ZEntry) (i : Nat) :
    extractedAfter (e :: rest) (i + 1)
      = (if e.isDir = false ∧ e.event = FileEvent.ok then 1 else 0)
        + extractedAfter rest i := by
  unfold extractedAfter okEntries
  rw [List.take_succ_cons, List.filter_cons]
  by_cases hd : e.isDir = true
  · simp [hd]
  · by_cases he : e.event = FileEvent.ok
    · simp [hd, he]
      omega
    · simp [hd, he]

/-- Reindexing a filtered-and-mapped `range'` from start 1 to start 0. -/
theorem range'_one_filter_map (g : Nat → Nat) (P : Nat → Bool) (n : Nat) :
    ((List.range' 1 n).filter P).map g
      = ((List.range' 0 n).filter (fun i => P (i + 1))).map
          (fun i => g (i + 1)) := by
  have general : ∀ (m s : Nat),
      ((List.range' (s + 1) m).filter P).map g
        = ((List.range' s m).filter (fun i => P (i + 1))).map
            (fun i => g (i + 1)) := by
    intro m
    induction m with
    | zero => intro s; simp
    | succ m ih =>
        intro s
        rw [List.range'_succ, List.range'_succ, List.filter_cons,
          List.filter_cons]
        by_cases h : P (s + 1) = true
        · simp [h, ih (s + 1)]
        · simp [h, ih (s + 1)]
  simpa using general n 0

/-- Extensionality for a filtered-and-mapped list. -/
theorem filter_map_ext (l : List Nat) (p q : Nat → Bool) (g h : Nat → Nat)
    (hpq : ∀ i, p i = q i) (hgh : ∀ i, g i = h i) :
    (l.filter p).map g = (l.filter q).map h := by
  rw [funext hpq, funext hgh]

/-- Closed form of the write-loop callback trace on an arbitrary
uninterrupted plan, skipped files included: after handling the `(i+1)`-st
file — processed or skipped — the callback fires exactly when the running
processed count `processedAfter plan (i+1)` (offset by the initial count)
is a multiple of `PROGRESS_UPDATE_INTERVAL`. -/
theorem write_loop_trace_general (plan : List PlanFile) :
    ∀ stats archive, (∀ f ∈ plan, f.event ≠ FileEvent.cancel) →
      (write_loop stats archive plan).interrupted = false ∧
      (write_loop stats archive plan).stats.processed_files
        = stats.processed_files + processedAfter plan plan.length ∧
      (write_loop stats archive plan).trace.map (fun s => s.processed_files)
        = ((List.range' 0 plan.length).filter
            (fun i => decide ((stats.processed_files
                + processedAfter plan (i + 1))
                % PROGRESS_UPDATE_INTERVAL = 0))).map
            (fun i => stats.processed_files + processedAfter plan (i + 1)) := by
  induction plan with
  | nil => intro stats archive _; simp [write_loop, processedAfter]
  | cons f rest ih =>
      intro stats archive hnc
      have hf : ¬ f.event = FileEvent.cancel :=
        hnc f (List.mem_cons_self f rest)
      have hrest : ∀ g ∈ rest, g.event ≠ FileEvent.cancel :=
        fun g hg => hnc g (List.mem_cons_of_mem f hg)
      have hlen : (f :: rest).length = rest.length + 1 := rfl
      by_cases hio : f.event = FileEvent.ioError
      · obtain ⟨h1, h2, h3⟩ := ih
          { stats with skipped_files := stats.skipped_files + 1 } archive hrest
        simp only at h2 h3
        have hpa : ∀ i, processedAfter (f :: rest) (i + 1)
            = processedAfter rest i := by
          intro i
          rw [processedAfter_cons]
          simp [hio]
        refine ⟨?_, ?_, ?_⟩
        · simp [write_loop, hf, _add_file_to_archive, hio, h1]
        · rw [hlen, hpa]
          simp [write_loop, hf, _add_file_to_archive, hio, h2]
        · rw [hlen, List.range'_succ, List.filter_cons]
          simp only [hpa, processedAfter_zero, Nat.add_zero, Nat.zero_add]
          by_cases hm : stats.processed_files % PROGRESS_UPDATE_INTERVAL = 0
          · simp [write_loop, hf, _add_file_to_archive, hio, hm, h3,
              range'_one_filter_map, hpa, processedAfter_zero]
          · simp [write_loop, hf, _add_file_to_archive, hio, hm, h3,
              range'_one_filter_map, hpa, processedAfter_zero]
      · have hok : f.event = FileEvent.ok := by
          cases hcase : f.event
          · rfl
          · exact absurd hcase hio
          · exact absurd hcase hf
        obtain ⟨h1, h2, h3⟩ := ih
          { stats with
              processed_files := stats.processed_files + 1,
              processed_size := stats.processed_size + f.size }
          (archive ++ [(f.path, file_data f)]) hrest
        simp only at h2 h3
        have hpa : ∀ i, processedAfter (f :: rest) (i + 1)
            = 1 + processedAfter rest i := by
          intro i
          rw [processedAfter_cons]
          simp [hok]
        refine ⟨?_, ?_, ?_⟩
        · simp [write_loop, hf, _add_file_to_archive, hio, h1]
        · rw [hlen, hpa]
          simp [write_loop, hf, _add_file_to_archive, hio, h2]
          omega
        · rw [hlen, List.range'_succ, List.filter_cons]
          simp only [hpa, processedAfter_zero, Nat.add_zero, Nat.zero_add]
          by_cases hm :
              (stats.processed_files + 1) % PROGRESS_UPDATE_INTERVAL = 0
          · simp [write_loop, hf, _add_file_to_archive, hio, hm, h3,
              range'_one_filter_map, hpa, processedAfter_zero]
            apply filter_map_ext
            · intro i
              simp only [decide_eq_decide, PROGRESS_UPDATE_INTERVAL]
              omega
            · intro i
              omega
          · simp [write_loop, hf, _add_file_to_archive, hio, hm, h3,
              range'_one_filter_map, hpa, processedAfter_zero]
            apply filter_map_ext
            · intro i
              simp only [decide_eq_decide, PROGRESS_UPDATE_INTERVAL]
              omega
            · intro i
              omega

/-- Closed form of the extraction-loop callback trace on an arbitrary
uninterrupted entry list, directory entries and per-entry failures
included: only a successful extraction (detected as the prefix count
increasing) fires, and only when the running extracted count (offset by
the initial count) is a multiple of `PROGRESS_UPDATE_INTERVAL` or equals
`total_files`. -/
theorem extract_loop_trace_general (es : List ZEntry) :
    ∀ stats written, (∀ e ∈ es, e.event ≠ FileEvent.cancel) →
      (extract_loop stats written es).cancelled = false ∧
      (extract_loop stats written es).stats.extracted_files
        = stats.extracted_files + extractedAfter es es.length ∧
      (extract_loop stats written es).trace.map (fun s => s.extracted_files)
        = ((List.range' 0 es.length).filter
            (fun i => decide (extractedAfter es (i + 1)
                = extractedAfter es i + 1
              ∧ ((stats.extracted_files + extractedAfter es (i + 1))
                    % PROGRESS_UPDATE_INTERVAL = 0
                 ∨ stats.extracted_files + extractedAfter es (i + 1)
                     = stats.total_files)))).map
            (fun i => stats.extracted_files + extractedAfter es (i + 1)) := by
  induction es with
  | nil => intro stats written _; simp [extract_loop, extractedAfter, okEntries]
  | cons e rest ih =>
      intro stats written hnc
      have he : ¬ e.event = FileEvent.cancel :=
        hnc e (List.mem_cons_self e rest)
      have hrest : ∀ x ∈ rest, x.event ≠ FileEvent.cancel :=
        fun x hx => hnc x (List.mem_cons_of_mem e hx)
      have hlen : (e :: rest).length = rest.length + 1 := rfl
      by_cases hd : e.isDir = true
      · obtain ⟨h1, h2, h3⟩ := ih stats written hrest
        have hea : ∀ i, extractedAfter (e :: rest) (i + 1)
            = extractedAfter rest i := by
          intro i
          rw [extractedAfter_cons]
          simp [hd]
        refine ⟨?_, ?_, ?_⟩
        · simp [extract_loop, he, hd, h1]
        · rw [hlen, hea]
          simp [extract_loop, he, hd, h2]
        · rw [hlen, List.range'_succ, List.filter_cons]
          simp only [hea, extractedAfter_zero, Nat.add_zero, Nat.zero_add]
          simp [extract_loop, he, hd, h3, range'_one_filter_map, hea,
            extractedAfter_zero]
      · by_cases hio : e.event = FileEvent.ioError
        · obtain ⟨h1, h2, h3⟩ := ih
            { stats with
                skipped_files := stats.skipped_files + 1,
                errors := stats.errors + 1 } written hrest
          simp only at h2 h3
          have hea : ∀ i, extractedAfter (e :: rest) (i + 1)
              = extractedAfter rest i := by
            intro i
            rw [extractedAfter_cons]
            simp [hio]
          refine ⟨?_, ?_, ?_⟩
          · simp [extract_loop, he, hd, hio, h1]
          · rw [hlen, hea]
            simp [extract_loop, he, hd, hio, h2]
          · rw [hlen, List.range'_succ, List.filter_cons]
            simp only [hea, extractedAfter_zero, Nat.add_zero, Nat.zero_add]
            simp [extract_loop, he, hd, hio, h3, range'_one_filter_map, hea,
              extractedAfter_zero]
        · have hok : e.event = FileEvent.ok := by
            cases hcase : e.event
            · rfl
            · exact absurd hcase hio
            · exact absurd hcase he
          obtain ⟨h1, h2, h3⟩ := ih
            { stats with
                extracted_files := stats.extracted_files + 1,
                extracted_size := stats.extracted_size + e.fileSize }
            (written ++ [(e.name, e.content)]) hrest
          simp only at h2 h3
          have hea : ∀ i, extractedAfter (e :: rest) (i + 1)
              = 1 + extractedAfter rest i := by
            intro i
            rw [extractedAfter_cons]
            simp [hd, hok]
          refine ⟨?_, ?_, ?_⟩
          · simp [extract_loop, he, hd, hio, h1]
          · rw [hlen, hea]
            simp [extract_loop, he, hd, hio, h2]
            omega
          · rw [hlen, List.range'_succ, List.filter_cons]
            simp only [hea, extractedAfter_zero, Nat.add_zero, Nat.zero_add]
            by_cases hm :
                (stats.extracted_files + 1) % PROGRESS_UPDATE_INTERVAL = 0
                  ∨ stats.extracted_files + 1 = stats.total_files
            · simp [extract_loop, he, hd, hio, hm, h3,
                range'_one_filter_map, hea, extractedAfter_zero]
              apply filter_map_ext
              · intro i
                rw [Bool.eq_iff_iff]
                simp only [Bool.and_eq_true, Bool.or_eq_true,
                  decide_eq_true_eq, PROGRESS_UPDATE_INTERVAL]
                omega
              · intro i
                omega
            · simp [extract_loop, he, hd, hio, hm, h3,
                range'_one_filter_map, hea, extractedAfter_zero]
              apply filter_map_ext
              · intro i
                rw [Bool.eq_iff_iff]
                simp only [Bool.and_eq_true, Bool.or_eq_true,
                  decide_eq_true_eq, PROGRESS_UPDATE_INTERVAL]
                omega
              · intro i
                omega

/-- Claim C9, amended: during a backup that reaches the write phase and is
not interrupted, the callback fires once before the first file and then
after handling each file — whether it was processed or skipped — exactly
when the running `processed_files` count is a multiple of 10 (so a skipped
file triggers a further callback with an unchanged count whenever that
count, 0 included, sits at a multiple of 10), plus once after the loop
when the final processed count is not a multiple of 10; during a restore
it fires once before the first entry, after each successfully extracted
file whose running count is a multiple of 10 or equals the total entry
count (skipped and directory entries never fire), and once more after the
loop finishes — so a fully extracted archive fires twice at the end. -/
theorem claim_C9_amended_callback_cadence
    (benv : BackupEnv)
    (hbse : benv.sourceExists = true) (hbsd : benv.sourceIsDir = true)
    (hbcheck : check_disk_space benv.parentExists benv.freeSpace
        (calculate_total_size benv.plan).total_size = none)
    (hbnc : ∀ f ∈ benv.plan, f.event ≠ FileEvent.cancel)
    (renv : RestoreEnv)
    (hae : renv.archiveExists = true) (haf : renv.archiveIsFile = true)
    (hopen : open_archive renv.archive renv.pwd = .ok ())
    (hrcheck : restore_check_disk_space renv.driveExists renv.freeSpace
        renv.archiveDiskSize = none)
    (hrnc : ∀ e ∈ renv.archive.entries, e.event ≠ FileEvent.cancel) :
    (create_archive benv).trace.map (fun s => s.processed_files)
      = 0 :: (((List.range' 0 benv.plan.length).filter
            (fun i => decide (processedAfter benv.plan (i + 1)
                % PROGRESS_UPDATE_INTERVAL = 0))).map
            (fun i => processedAfter benv.plan (i + 1))
          ++ (if processedAfter benv.plan benv.plan.length
                % PROGRESS_UPDATE_INTERVAL = 0
              then [] else [processedAfter benv.plan benv.plan.length])) ∧
    (extract_archive renv).trace.map (fun s => s.extracted_files)
      = 0 :: (((List.range' 0 renv.archive.entries.length).filter
            (fun i => decide (extractedAfter renv.archive.entries (i + 1)
                = extractedAfter renv.archive.entries i + 1
              ∧ (extractedAfter renv.archive.entries (i + 1)
                    % PROGRESS_UPDATE_INTERVAL = 0
                 ∨ extractedAfter renv.archive.entries (i + 1)
                     = renv.archive.entries.length)))).map
            (fun i => extractedAfter renv.archive.entries (i + 1))
          ++ [extractedAfter renv.archive.entries
                renv.archive.entries.length]) := by
  constructor
  · obtain ⟨h1, h2, h3⟩ := write_loop_trace_general benv.plan
      (calculate_total_size benv.plan) [] hbnc
    unfold create_archive
    rw [hbse, hbsd]
    have hv : validate_source true true = none := rfl
    rw [hv, hbcheck]
    simp only [calculate_total_size] at h1 h2 h3 ⊢
    simp only [Nat.zero_add] at h2 h3
    simp [h1, h2, h3]
    by_cases hm : processedAfter benv.plan benv.plan.length
        % PROGRESS_UPDATE_INTERVAL = 0
    · simp [hm]
    · simp [hm, h2]
  · obtain ⟨g1, g2, g3⟩ := extract_loop_trace_general renv.archive.entries
      { total_files := renv.archive.entries.length,
        total_size := restoreTotalSize renv.archive.entries } [] hrnc
    have hval : validate_archive renv.archiveExists renv.archiveIsFile
        renv.archive renv.pwd = none := by
      rw [hae, haf]
      simp [validate_archive, hopen]
    unfold extract_archive
    rw [hval, hrcheck]
    simp only at g2 g3
    simp only [Nat.zero_add] at g2 g3
    simp [g1, g2, g3]

/-- Environment of an uninterrupted backup run whose first file is skipped
by a read failure. -/
def wBenv9 : BackupEnv :=
  { sourceExists := true, sourceIsDir := true, parentExists := false,
    freeSpace := 0, archiveDiskSize := 0,
    plan := [{ path := "bad.txt", size := 1, content := [64],
               event := .ioError },
             { path := "a.txt", size := 1, content := [65], event := .ok }] }

/-- Environment of an uninterrupted restore run over a directory entry and
a regular file. -/
def wRenv9 : RestoreEnv :=
  { archiveExists := true, archiveIsFile := true, driveExists := false,
    freeSpace := 0, archiveDiskSize := 0,
    archive := { entries := [{ name := "sub", isDir := true,
                               fileSize := 0, content := [],
                               event := .ok },
                             { name := "b.txt", isDir := false,
                               fileSize := 1, content := [66],
                               event := .ok }],
                 protection := none },
    pwd := none }

/-- Witness for the amended C9 at two concrete runs, the backup one with a
skipped first file (the callback re-fires there with `processed_files`
still 0) and the restore one with a directory entry. -/
theorem claim_C9_witness :
    (create_archive wBenv9).trace.map (fun s => s.processed_files)
      = 0 :: (((List.range' 0 wBenv9.plan.length).filter
            (fun i => decide (processedAfter wBenv9.plan (i + 1)
                % PROGRESS_UPDATE_INTERVAL = 0))).map
            (fun i => processedAfter wBenv9.plan (i + 1))
          ++ (if processedAfter wBenv9.plan wBenv9.plan.length
                % PROGRESS_UPDATE_INTERVAL = 0
              then [] else [processedAfter wBenv9.plan wBenv9.plan.length])) ∧
    (extract_archive wRenv9).trace.map (fun s => s.extracted_files)
      = 0 :: (((List.range' 0 wRenv9.archive.entries.length).filter
            (fun i => decide (extractedAfter wRenv9.archive.entries (i + 1)
                = extractedAfter wRenv9.archive.entries i + 1
              ∧ (extractedAfter wRenv9.archive.entries (i + 1)
                    % PROGRESS_UPDATE_INTERVAL = 0
                 ∨ extractedAfter wRenv9.archive.entries (i + 1)
                     = wRenv9.archive.entries.length)))).map
            (fun i => extractedAfter wRenv9.archive.entries (i + 1))
          ++ [extractedAfter wRenv9.archive.entries
                wRenv9.archive.entries.length]) :=
  claim_C9_amended_callback_cadence wBenv9 rfl rfl rfl (by decide)
    wRenv9 rfl rfl rfl rfl (by decide)

/-- Environment of a successful single-entry restore run. -/
def cRenv9 : RestoreEnv :=
  { archiveExists := true, archiveIsFile := true, driveExists := false,
    freeSpace := 0, archiveDiskSize := 0,
    archive := { entries := [{ name := "one.txt", isDir := false,
                               fileSize := 1, content := [7],
                               event := .ok }],
                 protection := none },
    pwd := none }

/-- Counterexample to C9 as stated: restoring a single-entry archive fires
the callback three times (before the first entry, after the final entry
because the count equals `total_files`, and once more after the loop),
while the claimed cadence — once before the first entry, every 10
extracted files, and once more on the final entry — implies exactly two
fires, with snapshots `[0, 1]`. -/
theorem claim_C9_counterexample :
    (extract_archive cRenv9).trace.map (fun s => s.extracted_files)
      = [0, 1, 1] ∧
    ¬ (extract_archive cRenv9).trace.map (fun s => s.extracted_files)
      = [0, 1] := by
  decide

/-! ## Round trip (claim C1) -/

/-- Successful reads return the file contents on both read paths. -/
theorem file_data_eq_content (f : PlanFile) : file_data f = f.content := by
  unfold file_data
  split
  · exact read_file_chunked_eq_self CHUNK_SIZE (by norm_num [CHUNK_SIZE])
      f.content
  · rfl

/-- The backup plan the scan produces for a source directory `D` of
readable regular files: one planned file per `(relative path, contents)`
pair, with the `stat` size of a regular file equal to its byte count and
every read succeeding. -/
def planOfDir (D : List (String × Bytes)) : List PlanFile :=
  D.map (fun pc => { path := pc.1, size := pc.2.length, content := pc.2,
                     event := FileEvent.ok })

/-- The archive file the backup wrote, as the restore pipeline reads it
back: the codec (an external collaborator) returns each stored entry's
name and bytes unchanged, reports its byte count as the declared
uncompressed size, marks no entry as a directory, and extraction into an
empty writable destination succeeds. -/
def archiveOfEntries (es : List Entry) : ZArchive :=
  { entries := es.map (fun pc =>
      { name := pc.1, isDir := false, fileSize := pc.2.length,
        content := pc.2, event := FileEvent.ok }),
    protection := none }

/-- Backing up a directory stores exactly its files, in order. -/
theorem backup_entries_of_dir (D : List (String × Bytes)) :
    (planOfDir D).map (fun f => (f.path, file_data f)) = D := by
  induction D with
  | nil => rfl
  | cons a rest ih =>
      simp only [planOfDir, List.map_cons] at ih ⊢
      rw [file_data_eq_content]
      simp only [ih]

/-- Extracting the stored entries writes exactly their names and bytes. -/
theorem restore_writes_entries (es : List Entry) :
    ((archiveOfEntries es).entries).map (fun e => (e.name, e.content))
      = es := by
  induction es with
  | nil => rfl
  | cons a rest ih =>
      simp only [archiveOfEntries, List.map_cons] at ih ⊢
      simp only [ih]

/-- Claim C1: for every non-empty source directory of readable regular
files, creating a backup archive and then restoring it into an empty
destination reproduces exactly the same set of source-relative paths with
byte-identical contents (both space preflights are assumed to pass). -/
theorem claim_C1_roundtrip (D : List (String × Bytes)) (hne : D ≠ [])
    (pe : Bool) (bfree basz : Nat)
    (hbs : check_disk_space pe bfree
        (calculate_total_size (planOfDir D)).total_size = none)
    (es : List Entry)
    (hes : (create_archive
        { sourceExists := true, sourceIsDir := true, parentExists := pe,
          freeSpace := bfree, archiveDiskSize := basz,
          plan := planOfDir D }).archiveFile = some es)
    (de : Bool) (rfree rasz : Nat)
    (hrs : restore_check_disk_space de rfree rasz = none) :
    ∀ pth c, (pth, c) ∈ (extract_archive
        { archiveExists := true, archiveIsFile := true, driveExists := de,
          freeSpace := rfree, archiveDiskSize := rasz,
          archive := archiveOfEntries es, pwd := none }).written
      ↔ (pth, c) ∈ D := by
  have hok : ∀ f ∈ planOfDir D, f.event = FileEvent.ok := by
    intro f hf
    simp only [planOfDir, List.mem_map] at hf
    obtain ⟨a, _, rfl⟩ := hf
    rfl
  obtain ⟨h1, h2, h3, h4⟩ := write_loop_all_ok (planOfDir D)
    (calculate_total_size (planOfDir D)) [] hok
  have hesD : es = D := by
    unfold create_archive at hes
    have hv : validate_source true true = none := rfl
    rw [hv] at hes
    simp only at hes
    rw [hbs] at hes
    simp only [h1] at hes
    simp at hes
    rw [h3, List.nil_append, backup_entries_of_dir] at hes
    exact hes.symm
  subst hesD
  have hrall : ∀ e ∈ (archiveOfEntries es).entries,
      e.isDir = false ∧ e.event = FileEvent.ok := by
    intro e he
    simp only [archiveOfEntries, List.mem_map] at he
    obtain ⟨a, _, rfl⟩ := he
    exact ⟨rfl, rfl⟩
  obtain ⟨g1, g2, g3, g4⟩ := extract_loop_all_ok (archiveOfEntries es).entries
    { total_files := (archiveOfEntries es).entries.length,
      total_size := restoreTotalSize (archiveOfEntries es).entries } [] hrall
  have hwr : (extract_archive
      { archiveExists := true, archiveIsFile := true, driveExists := de,
        freeSpace := rfree, archiveDiskSize := rasz,
        archive := archiveOfEntries es, pwd := none }).written = es := by
    unfold extract_archive
    have hval : validate_archive true true (archiveOfEntries es) none
        = none := rfl
    rw [hval]
    simp only
    rw [hrs]
    simp only [g1]
    simp
    rw [g3, List.nil_append, restore_writes_entries]
  intro pth c
  rw [hwr]

/-- Witness for C1 at a concrete one-file directory and one concrete
path/contents pair. -/
theorem claim_C1_witness :
    (("file1.txt", [104, 105]) ∈ (extract_archive
        { archiveExists := true, archiveIsFile := true, driveExists := false,
          freeSpace := 0, archiveDiskSize := 0,
          archive := archiveOfEntries [("file1.txt", [104, 105])],
          pwd := none }).written
      ↔ ("file1.txt", [104, 105])
          ∈ [(("file1.txt" : String), ([104, 105] : Bytes))]) :=
  claim_C1_roundtrip [("file1.txt", [104, 105])] (by decide) false 0 0 rfl
    [("file1.txt", [104, 105])] (by decide) false 0 0 rfl
    "file1.txt" [104, 105]

end Archivator
